import Mathlib

/-!
Shallow embedding of the aspasia policy-evaluation engine
(src/aspasia-pilot/main.py; the same engine is duplicated verbatim in
app.py and api_server.py).  Transactions and parsed YAML documents are
modelled by the recursive `Value` type (null / bool / integer / string /
sequence / mapping); mappings are association lists in document order.
Fallible Python code (exceptions) is modelled with `Except String`.
-/

/-- Python/YAML data value.  Mappings keep insertion order, as Python
dicts do.  Numbers are modelled as integers; no rule in the repository
uses fractional constants. -/
inductive Value where
  | nil
  | bool (b : Bool)
  | num (n : Int)
  | str (s : String)
  | list (xs : List Value)
  | dict (entries : List (String × Value))
deriving Repr, Inhabited

/-- Python truthiness (`bool(v)`): None, False, 0, empty string, empty
sequence and empty mapping are falsy.  Used by the `or` in
`r.get("when") or {...}`. -/
def pyTruthy : Value → Bool
  | .nil => false
  | .bool b => b
  | .num n => n != 0
  | .str s => s ≠ ""
  | .list xs => !xs.isEmpty
  | .dict es => !es.isEmpty

/-- Dictionary lookup (`d[k]` / `k in d` / `d.get(k)`): first entry with
the given key, if any. -/
def getKey : List (String × Value) → String → Option Value
  | [], _ => none
  | (k, v) :: rest, key => if k = key then some v else getKey rest key

/-- Conversion used by Python numeric comparison: booleans are numbers
(True = 1, False = 0). -/
def toNum : Value → Option Int
  | .num n => some n
  | .bool b => some (if b then 1 else 0)
  | _ => none

mutual

/-- Python structural equality `v == w`: numbers and booleans compare by
numeric value, strings by content, sequences elementwise, mappings
entrywise (parsed YAML mappings are compared in document order), and
values of different kinds are unequal (no error). -/
def pyEq : Value → Value → Bool
  | .num x, .num y => x == y
  | .num x, .bool b => x == (if b then 1 else 0)
  | .bool b, .num y => (if b then (1 : Int) else 0) == y
  | .bool a, .bool b => a == b
  | .str s, .str t => s == t
  | .nil, .nil => true
  | .list xs, .list ys => pyEqList xs ys
  | .dict xs, .dict ys => pyEqDict xs ys
  | _, _ => false

/-- Elementwise equality of sequences. -/
def pyEqList : List Value → List Value → Bool
  | [], [] => true
  | x :: xs, y :: ys => pyEq x y && pyEqList xs ys
  | _, _ => false

/-- Entrywise equality of mappings. -/
def pyEqDict : List (String × Value) → List (String × Value) → Bool
  | [], [] => true
  | (k, v) :: xs, (l, w) :: ys => k == l && pyEq v w && pyEqDict xs ys
  | _, _ => false

end

/-- Python ordered comparison `v > w`.  Defined for number/bool pairs and
for string pairs (the only ordered comparisons rule data can exercise);
any other combination raises a TypeError. -/
def pyGt (a b : Value) : Except String Bool :=
  match toNum a, toNum b with
  | some x, some y => pure (decide (y < x))
  | _, _ =>
    match a, b with
    | .str s, .str t => pure (decide (t < s))
    | _, _ => .error "TypeError: unorderable types"

/-- Python ordered comparison `v < w`. -/
def pyLt (a b : Value) : Except String Bool :=
  match toNum a, toNum b with
  | some x, some y => pure (decide (x < y))
  | _, _ =>
    match a, b with
    | .str s, .str t => pure (decide (s < t))
    | _, _ => .error "TypeError: unorderable types"

/-- Leading-segment test: does the second list start with the first? -/
def leadMatch : List Char → List Char → Bool
  | [], _ => true
  | _ :: _, [] => false
  | c :: cs, d :: ds => c == d && leadMatch cs ds

/-- Contiguous-occurrence test: does the first list occur inside the
second?  Models the Python substring test `s in t`. -/
def pySubstr (s : List Char) : List Char → Bool
  | [] => leadMatch s []
  | d :: ds => leadMatch s (d :: ds) || pySubstr s ds

/-- Python membership `v in c`: sequence membership (via `==`), mapping
key membership, or substring test for strings; anything else raises a
TypeError. -/
def pyIn (v c : Value) : Except String Bool :=
  match c with
  | .list xs => pure (xs.any (pyEq v))
  | .dict es => pure (es.any (fun p => pyEq v (.str p.1)))
  | .str t =>
    match v with
    | .str s => pure (pySubstr s.data t.data)
    | _ => .error "TypeError: in string requires string operand"
  | _ => .error "TypeError: argument is not iterable"

/-- Leaf condition (dataclass Condition): one field / operator / operand
test.  In the source `field` and `op` are typed `str`. -/
structure Condition where
  field : String
  op : String
  value : Value
deriving Repr

/-- Python `field.split(".")`: cut the character list at every dot;
adjacent dots and leading/trailing dots produce empty segments, and the
empty string yields the single segment [""]. -/
def splitParts : List Char → List Char → List String
  | acc, [] => [String.mk acc.reverse]
  | acc, c :: cs =>
    if c = '.' then String.mk acc.reverse :: splitParts [] cs
    else splitParts (c :: acc) cs

/-- Condition._get_nested, but returning an explicit marker: walk the
dotted path; `none` when at some step the current value is not a mapping
or the segment is absent, otherwise `some` the resolved value.  The
source conflates the two outcomes (see `getNested`). -/
def resolvePath : List String → Value → Option Value
  | [], v => some v
  | p :: ps, .dict d =>
    match getKey d p with
    | some v => resolvePath ps v
    | none => none
  | _ :: _, _ => none

/-- Condition._get_nested: split the dotted path and walk the mapping;
returns None both when the path fails to resolve and when it resolves to
a stored None. -/
def getNested (field : String) (tx : Value) : Value :=
  match resolvePath (splitParts [] field.data) tx with
  | some v => v
  | none => .nil

/-- Identity test `v is None`. -/
def Value.isNil : Value → Bool
  | .nil => true
  | _ => false

/-- Condition.eval: resolve the field; None (missing or stored null)
evaluates to False before the operator is consulted; then dispatch on
the operator string, raising for an unknown operator. -/
def Condition.eval (c : Condition) (tx : Value) : Except String Bool :=
  let v := getNested c.field tx
  if v.isNil then pure false
  else if c.op = "gt" then pyGt v c.value
  else if c.op = "lt" then pyLt v c.value
  else if c.op = "eq" then pure (pyEq v c.value)
  else if c.op = "in" then pyIn v c.value
  else .error ("Unknown operator: " ++ c.op)

/-- Node = Union[Condition, CompositeCondition].  The composite variant
carries CompositeCondition's fields (mode, children); the recursion
forces the union and the composite dataclass to be one inductive. -/
inductive Node where
  | cond (c : Condition)
  | comp (mode : String) (children : List Node)
deriving Repr

mutual

/-- Node evaluation: leaf conditions via Condition.eval; composites
combine their children under all/any (CompositeCondition.eval tests
`mode == "all"` and treats any other mode as `any`). -/
def Node.eval : Node → Value → Except String Bool
  | .cond c, tx => c.eval tx
  | .comp m cs, tx => if m = "all" then Node.evalAll cs tx else Node.evalAny cs tx

/-- Python `all(child.eval(tx) for child in children)`: short-circuits at
the first false child; errors propagate. -/
def Node.evalAll : List Node → Value → Except String Bool
  | [], _ => pure true
  | n :: ns, tx => do
    if (← n.eval tx) then Node.evalAll ns tx else pure false

/-- Python `any(...)`: short-circuits at the first true child. -/
def Node.evalAny : List Node → Value → Except String Bool
  | [], _ => pure false
  | n :: ns, tx => do
    if (← n.eval tx) then pure true else Node.evalAny ns tx

end

/-- Decidable equality for the error monad results used throughout, so
that concrete evaluations can be settled by decide. -/
instance {ε α : Type} [DecidableEq ε] [DecidableEq α] : DecidableEq (Except ε α) :=
  fun a b =>
    match a, b with
    | .ok x, .ok y =>
      if h : x = y then .isTrue (by rw [h]) else .isFalse (by intro hc; cases hc; exact h rfl)
    | .error x, .error y =>
      if h : x = y then .isTrue (by rw [h]) else .isFalse (by intro hc; cases hc; exact h rfl)
    | .ok _, .error _ => .isFalse (by intro hc; cases hc)
    | .error _, .ok _ => .isFalse (by intro hc; cases hc)

/-- Compiled rule (dataclass Rule).  The source annotates `action` with
the Decision literal type, but Python does not enforce annotations and
`load_rules_from_yaml` stores the specification's action unchecked, so
the model keeps it as a plain string. -/
structure Rule where
  name : String
  root : Node
  action : String
  priority : Int
deriving Repr

/-- Size of a value found by key lookup is below the size of the
enclosing entry list. -/
theorem sizeOf_getKey {d : List (String × Value)} {k : String} {v : Value}
    (h : getKey d k = some v) : sizeOf v < sizeOf d := by
  induction d with
  | nil => simp [getKey] at h
  | cons hd tl ih =>
    obtain ⟨k0, v0⟩ := hd
    by_cases hk : k0 = k
    · simp [getKey, hk] at h
      subst h
      simp
      omega
    · simp [getKey, hk] at h
      have := ih h
      simp
      omega

/-- Leaf case of build_node: `Condition(field=spec["field"],
op=spec["op"], value=spec["value"])`.  Missing keys raise; the model
additionally requires `field` and `op` to be strings here (Python would
store a non-string and fail on first use). -/
def build_leaf (d : List (String × Value)) : Except String Node :=
  match getKey d "field", getKey d "op", getKey d "value" with
  | some (.str f), some (.str o), some v => pure (.cond ⟨f, o, v⟩)
  | some _, some _, some _ => .error "TypeError: field and op must be strings"
  | _, _, _ => .error "KeyError: a condition requires field, op and value"

mutual

/-- build_node on a parsed specification: a mapping containing an `all`
key (checked first, as in the source) or an `any` key becomes a
composite over its child specifications; otherwise a leaf condition is
built from `field`/`op`/`value`.  A non-mapping specification is an
error (in Python the subsequent subscripting fails). -/
def build_node (spec : Value) : Except String Node :=
  match spec with
  | .dict d =>
    match h : getKey d "all" with
    | some v => build_comp "all" v
    | none =>
      match h2 : getKey d "any" with
      | some v => build_comp "any" v
      | none => build_leaf d
  | _ => .error "TypeError: specification must be a mapping"
termination_by sizeOf spec
decreasing_by
  · have := sizeOf_getKey h
    simp
    omega
  · have := sizeOf_getKey h2
    simp
    omega

/-- Children of a composite: the value under the mode key must be a
sequence of child specifications (iterating anything else fails). -/
def build_comp (mode : String) (v : Value) : Except String Node :=
  match v with
  | .list cs => do pure (Node.comp mode (← build_children cs))
  | _ => .error "TypeError: composite children must be a sequence"
termination_by sizeOf v

/-- List comprehension `[build_node(child) for child in spec[mode]]`. -/
def build_children : List Value → Except String (List Node)
  | [] => pure []
  | c :: cs => do pure ((← build_node c) :: (← build_children cs))
termination_by l => sizeOf l

end

/-- Python `int(x)`: integers unchanged, booleans to 0/1, integer
strings parsed, everything else a conversion error. -/
def pyInt : Value → Except String Int
  | .num n => pure n
  | .bool b => pure (if b then 1 else 0)
  | .str s =>
    match s.toInt? with
    | some n => pure n
    | none => .error "ValueError: invalid literal for int"
  | _ => .error "TypeError: int() argument"

/-- Always-true sentinel substituted for an absent or falsy `when`
clause: a condition on the magic field `__always__`. -/
def sentinelSpec : Value :=
  .dict [("field", .str "__always__"), ("op", .str "eq"), ("value", .bool true)]

/-- Compilation of one rule specification, in the source's evaluation
order: the `when` clause (absent or falsy means the sentinel), then
`name`, the root node, `action` and `priority` (defaulting to 0). -/
def load_rule (r : Value) : Except String Rule :=
  match r with
  | .dict d => do
    let whenSpec :=
      match getKey d "when" with
      | some w => if pyTruthy w then w else sentinelSpec
      | none => sentinelSpec
    let name ←
      match getKey d "name" with
      | some (.str s) => pure s
      | some _ => Except.error "TypeError: name must be a string"
      | none => Except.error "KeyError: name"
    let root ← build_node whenSpec
    let action ←
      match getKey d "action" with
      | some (.str s) => pure s
      | some _ => Except.error "TypeError: action must be a string"
      | none => Except.error "KeyError: action"
    let priority ←
      match getKey d "priority" with
      | some p => pyInt p
      | none => pure (0 : Int)
    pure ⟨name, root, action, priority⟩
  | _ => .error "TypeError: rule specification must be a mapping"

/-- load_rules_from_yaml after YAML parsing (yaml.safe_load and the
dedent are external boilerplate): compile each specification of the
parsed sequence in order, aborting the whole load at the first failure
(the Python loop raises and returns nothing). -/
def load_rules_from_yaml (raw : Value) : Except String (List Rule) :=
  match raw with
  | .list rs => rs.mapM load_rule
  | _ => .error "TypeError: rule document must be a sequence"

/-- PolicyEngine.action_rank as a partial map: subscripting it with any
other action raises a KeyError. -/
def action_rank (a : String) : Option Nat :=
  if a = "block" then some 2
  else if a = "flag" then some 1
  else if a = "allow" then some 0
  else none

/-- Total companion of action_rank used only to state claims (equal to
action_rank on the three decisions). -/
def rankD (a : String) : Nat := (action_rank a).getD 0

/-- Sort key of max(): the pair (severity rank, priority). -/
def keyP (r : Rule) : Nat × Int := (rankD r.action, r.priority)

/-- Python lexicographic comparison of (rank, priority) pairs. -/
def tupLt (a b : Nat × Int) : Bool :=
  decide (a.1 < b.1) || (a.1 == b.1 && decide (a.2 < b.2))

/-- Key computation inside max(): `(self.action_rank[r.action],
r.priority)`, raising a KeyError for an action outside the rank map. -/
def keyOf (r : Rule) : Except String (Nat × Int) :=
  match action_rank r.action with
  | some k => pure (k, r.priority)
  | none => .error ("KeyError: " ++ r.action)

/-- Python `max(best :: l, key=...)`: scan left to right keeping the
first element whose key no later key strictly exceeds. -/
def pyMaxBy (best : Rule) (kb : Nat × Int) : List Rule → Except String Rule
  | [] => pure best
  | r :: rs => do
    let kr ← keyOf r
    if tupLt kb kr then pyMaxBy r kr rs else pyMaxBy best kb rs

/-- Python string comparison (code-point lexicographic, strict). -/
def charsLt : List Char → List Char → Bool
  | _, [] => false
  | [], _ :: _ => true
  | c :: cs, d :: ds =>
    decide (c.toNat < d.toNat) || (c.toNat == d.toNat && charsLt cs ds)

/-- Comparison underlying `sorted(rules, key=lambda r: (-r.priority,
r.name))`: descending priority, then ascending name. -/
def ruleLE (a b : Rule) : Bool :=
  if a.priority == b.priority then !(charsLt b.name.data a.name.data)
  else decide (b.priority < a.priority)

/-- ruleLE as a relation, for the sorting lemmas. -/
def RuleLE : Rule → Rule → Prop := fun a b => ruleLE a b = true

instance : DecidableRel RuleLE := fun a b =>
  inferInstanceAs (Decidable (ruleLE a b = true))

/-- Python `sorted` (a stable sort; for the total preorder RuleLE every
stable sort produces the same list, so insertion sort models it
exactly). -/
def sortedRules (rules : List Rule) : List Rule := List.insertionSort RuleLE rules

/-- Main evaluation loop: evaluate every rule in sorted order, recording
a trace entry per rule and collecting the matched rules in order. -/
def runRules : List Rule → Value → Except String (List (String × Bool) × List Rule)
  | [], _ => pure ([], [])
  | r :: rs, tx => do
    let b ← Node.eval r.root tx
    let (tr, m) ← runRules rs tx
    pure ((r.name, b) :: tr, if b then r :: m else m)

/-- Result record of PolicyEngine.evaluate. -/
structure EvalResult where
  decision : String
  rule : Option String
  matched_rules : List String
  trace : List (String × Bool)
deriving Repr, DecidableEq

/-- PolicyEngine.evaluate: sort, run every rule, then either default to
allow (no match) or pick the matched rule maximizing (rank, priority)
with Python max (first maximum wins). -/
def PolicyEngine.evaluate (rules : List Rule) (tx : Value) : Except String EvalResult := do
  let ordered := sortedRules rules
  let (trace, matched) ← runRules ordered tx
  match matched with
  | [] => pure ⟨"allow", none, [], trace⟩
  | m :: ms => do
    let km ← keyOf m
    let chosen ← pyMaxBy m km ms
    pure ⟨chosen.action, some chosen.name, (m :: ms).map Rule.name, trace⟩

/-! Helper lemmas about the orders used by sorting and max(). -/

/-- Equality of characters follows from equality of code points. -/
theorem char_eq_of_toNat_eq {a b : Char} (h : a.toNat = b.toNat) : a = b :=
  Char.eq_of_val_eq (UInt32.toNat.inj h)

/-- Equality of strings follows from equality of their character
lists. -/
theorem string_eq_of_data_eq {s t : String} (h : s.data = t.data) : s = t := by
  cases s; cases t; simp_all

/-- charsLt is irreflexive. -/
theorem charsLt_irrefl : ∀ s, charsLt s s = false
  | [] => rfl
  | c :: cs => by simp [charsLt, charsLt_irrefl cs]

/-- charsLt is asymmetric. -/
theorem charsLt_asymm : ∀ {s t}, charsLt s t = true → charsLt t s = false
  | _ :: _, [] , h => by simp [charsLt] at h
  | [], _ :: _, _ => rfl
  | [], [], h => by simp [charsLt] at h
  | c :: cs, d :: ds, h => by
    simp [charsLt] at h ⊢
    rcases h with h | ⟨he, hr⟩
    · exact ⟨by omega, fun hh => by omega⟩
    · exact ⟨by omega, fun _ => charsLt_asymm hr⟩

/-- charsLt is transitive. -/
theorem charsLt_trans : ∀ {s t u}, charsLt s t = true → charsLt t u = true →
    charsLt s u = true
  | _, _ :: _, [], _, h2 => by simp [charsLt] at h2
  | _, [], _, h1, _ => by simp [charsLt] at h1
  | [], _ :: _, _ :: _, _, _ => rfl
  | a :: as, b :: bs, c :: cs, h1, h2 => by
    simp [charsLt] at h1 h2 ⊢
    rcases h1 with h1 | ⟨hb1, hr1⟩ <;> rcases h2 with h2 | ⟨hb2, hr2⟩
    · exact Or.inl (by omega)
    · exact Or.inl (by omega)
    · exact Or.inl (by omega)
    · exact Or.inr ⟨by omega, charsLt_trans hr1 hr2⟩

/-- charsLt is connected: mutually incomparable lists are equal. -/
theorem charsLt_conn : ∀ {s t}, charsLt s t = false → charsLt t s = false → s = t
  | [], [], _, _ => rfl
  | [], _ :: _, h1, _ => by simp [charsLt] at h1
  | _ :: _, [], _, h2 => by simp [charsLt] at h2
  | c :: cs, d :: ds, h1, h2 => by
    simp [charsLt] at h1 h2
    have hcd : c.toNat = d.toNat := by omega
    have := charsLt_conn (h1.2 hcd) (h2.2 hcd.symm)
    rw [char_eq_of_toNat_eq hcd, this]

/-- tupLt is irreflexive. -/
theorem tupLt_irrefl (a : Nat × Int) : tupLt a a = false := by simp [tupLt]

/-- tupLt is asymmetric. -/
theorem tupLt_asymm {a b : Nat × Int} (h : tupLt a b = true) : tupLt b a = false := by
  simp [tupLt] at h ⊢; omega

/-- From b at most a and a below c conclude b below c. -/
theorem tupLt_of_not_of_lt {a b c : Nat × Int} (h1 : tupLt a b = false)
    (h2 : tupLt a c = true) : tupLt b c = true := by
  simp [tupLt] at h1 h2 ⊢; omega

/-- From a below b and b at most c conclude a below c. -/
theorem tupLt_of_lt_of_not {a b c : Nat × Int} (h1 : tupLt a b = true)
    (h2 : tupLt c b = false) : tupLt a c = true := by
  simp [tupLt] at h1 h2 ⊢; omega

/-- The rule comparison is total. -/
instance : IsTotal Rule RuleLE where
  total a b := by
    unfold RuleLE ruleLE
    by_cases hp : a.priority = b.priority
    · simp only [hp, beq_self_eq_true, if_true]
      cases h : charsLt b.name.data a.name.data
      · exact Or.inl (by simp [h])
      · exact Or.inr (by simp [charsLt_asymm h])
    · have hq : ¬ b.priority = a.priority := fun hh => hp hh.symm
      simp only [beq_iff_eq, hp, hq, if_false, decide_eq_true_eq]
      omega

/-- Complement of charsLt (at most) is transitive. -/
theorem charsLe_trans {x y z : List Char} (h1 : charsLt y x = false)
    (h2 : charsLt z y = false) : charsLt z x = false := by
  cases hq : charsLt z x with
  | false => rfl
  | true =>
    exfalso
    cases hr : charsLt x y with
    | true => simp [charsLt_trans hq hr] at h2
    | false =>
      have hxy := charsLt_conn hr h1
      rw [hxy] at hq
      simp [hq] at h2

/-- The rule comparison is transitive. -/
instance : IsTrans Rule RuleLE where
  trans a b c hab hbc := by
    unfold RuleLE ruleLE at *
    by_cases h1 : a.priority = b.priority <;> by_cases h2 : b.priority = c.priority
    · have h13 : a.priority = c.priority := h1.trans h2
      simp only [h13, h2, beq_self_eq_true, if_true] at hab hbc ⊢
      rw [Bool.not_eq_true'] at hab hbc ⊢
      exact charsLe_trans hab hbc
    · have h3 : a.priority ≠ c.priority := by rw [h1]; exact h2
      simp only [beq_iff_eq, h1, h2, h3, if_true, if_false, decide_eq_true_eq] at *
      omega
    · have h3 : a.priority ≠ c.priority := by rw [← h2]; exact h1
      simp only [beq_iff_eq, h1, h2, h3, if_true, if_false, decide_eq_true_eq] at *
      omega
    · by_cases h3 : a.priority = c.priority
      · exfalso
        simp only [beq_iff_eq, h1, h2, if_false, decide_eq_true_eq] at hab hbc
        omega
      · simp only [beq_iff_eq, h1, h2, h3, if_false, decide_eq_true_eq] at *
        omega

/-- Reduction of a successful bind in the error monad. -/
theorem except_bind_ok {α β : Type} (a : α) (f : α → Except String β) :
    (Except.ok a >>= f : Except String β) = f a := rfl

/-- Reduction of a failed bind in the error monad. -/
theorem except_bind_error {α β : Type} (e : String) (f : α → Except String β) :
    (Except.error e >>= f : Except String β) = Except.error e := rfl

/-- pure in the error monad is ok. -/
theorem except_pure {α : Type} (a : α) : (pure a : Except String α) = Except.ok a := rfl

/-- Boolean match test for a rule on a transaction: did its root
evaluate (successfully) to true? -/
def hitB (r : Rule) (tx : Value) : Bool := decide (Node.eval r.root tx = Except.ok true)

/-- When every rule of the list evaluates without error, the evaluation
loop succeeds and returns one trace entry per rule in list order plus
the sublist of matched rules. -/
theorem runRules_ok_of : ∀ (l : List Rule) (tx : Value),
    (∀ r ∈ l, ∃ b, Node.eval r.root tx = Except.ok b) →
    runRules l tx = Except.ok
      (l.map (fun r => (r.name, hitB r tx)), l.filter (fun r => hitB r tx))
  | [], _, _ => rfl
  | r :: rs, tx, h => by
    obtain ⟨b, hb⟩ := h r (List.mem_cons_self r rs)
    have ih := runRules_ok_of rs tx (fun x hx => h x (List.mem_cons_of_mem r hx))
    have hbit : hitB r tx = b := by
      cases b <;> simp [hitB, hb]
    cases b <;> simp [runRules, hb, ih, except_bind_ok, except_pure, hbit]

/-- Inversion of a successful evaluation loop: the trace lists every
rule in order with its boolean result, and the matched list is the
filter of the rules by that result. -/
theorem runRules_ok_inv : ∀ (l : List Rule) (tx : Value) (tr : List (String × Bool))
    (m : List Rule), runRules l tx = Except.ok (tr, m) →
    tr = l.map (fun r => (r.name, hitB r tx)) ∧
      m = l.filter (fun r => hitB r tx) ∧
      ∀ r ∈ l, Node.eval r.root tx = Except.ok (hitB r tx)
  | [], _, tr, m, h => by
    simp only [runRules, except_pure, Except.ok.injEq, Prod.mk.injEq] at h
    simp [← h.1, ← h.2]
  | r :: rs, tx, tr, m, h => by
    cases hb : Node.eval r.root tx with
    | error e =>
      simp only [runRules, hb, except_bind_error] at h
      exact Except.noConfusion h
    | ok b =>
      cases hrec : runRules rs tx with
      | error e =>
        simp only [runRules, hb, hrec, except_bind_ok, except_bind_error] at h
        exact Except.noConfusion h
      | ok p =>
        obtain ⟨tr0, m0⟩ := p
        obtain ⟨ih1, ih2, ih3⟩ := runRules_ok_inv rs tx tr0 m0 hrec
        have hbit : hitB r tx = b := by cases b <;> simp [hitB, hb]
        simp only [runRules, hb, hrec, except_bind_ok, except_pure,
          Except.ok.injEq, Prod.mk.injEq] at h
        refine ⟨?_, ?_, ?_⟩
        · rw [← h.1, List.map_cons, ← ih1, hbit]
        · rw [← h.2, List.filter_cons, hbit, ← ih2]
        · intro x hx
          rcases List.mem_cons.mp hx with rfl | hx
          · rw [hbit]; exact hb
          · exact ih3 x hx

/-- Key computation succeeds exactly on the three decisions, returning
the claim-level key pair. -/
theorem keyOf_eq {r : Rule} (h : action_rank r.action ≠ none) :
    keyOf r = Except.ok (keyP r) := by
  unfold keyOf keyP rankD
  cases hk : action_rank r.action with
  | none => exact absurd hk h
  | some k => simp [except_pure]

/-- Python max over a nonempty rule list with valid keys: it succeeds
and returns the first element of maximal key; everything strictly
before the winner in the list has a strictly smaller key, and nothing
in the list has a strictly larger key. -/
theorem pyMaxBy_spec : ∀ (l : List Rule) (best : Rule),
    action_rank best.action ≠ none →
    (∀ r ∈ l, action_rank r.action ≠ none) →
    ∃ c l₁ l₂, pyMaxBy best (keyP best) l = Except.ok c ∧
      best :: l = l₁ ++ c :: l₂ ∧
      (∀ r ∈ l₁, tupLt (keyP r) (keyP c) = true) ∧
      (∀ r ∈ best :: l, tupLt (keyP c) (keyP r) = false)
  | [], best, _, _ => by
    refine ⟨best, [], [], rfl, rfl, by simp, ?_⟩
    intro r hr
    rcases List.mem_singleton.mp hr with rfl
    exact tupLt_irrefl _
  | r :: rs, best, hbest, hl => by
    have hr0 : action_rank r.action ≠ none := hl r (List.mem_cons_self r rs)
    have hrs : ∀ x ∈ rs, action_rank x.action ≠ none :=
      fun x hx => hl x (List.mem_cons_of_mem r hx)
    cases hcmp : tupLt (keyP best) (keyP r) with
    | true =>
      obtain ⟨c, l₁, l₂, hok, hsplit, hlo, hmax⟩ := pyMaxBy_spec rs r hr0 hrs
      refine ⟨c, best :: l₁, l₂, ?_, by simp [hsplit], ?_, ?_⟩
      · simp only [pyMaxBy, keyOf_eq hr0, except_bind_ok, hcmp, if_true]
        exact hok
      · intro x hx
        rcases List.mem_cons.mp hx with rfl | hx
        · exact tupLt_of_lt_of_not hcmp (hmax r (List.mem_cons_self r rs))
        · exact hlo x hx
      · intro x hx
        rcases List.mem_cons.mp hx with rfl | hx
        · exact tupLt_asymm (tupLt_of_lt_of_not hcmp (hmax r (List.mem_cons_self r rs)))
        · exact hmax x hx
    | false =>
      obtain ⟨c, l₁, l₂, hok, hsplit, hlo, hmax⟩ := pyMaxBy_spec rs best hbest hrs
      cases l₁ with
      | nil =>
        rw [List.nil_append] at hsplit
        injection hsplit with hc hl2
        subst hc
        subst hl2
        refine ⟨best, [], r :: rs, ?_, rfl, by simp, ?_⟩
        · simp only [pyMaxBy, keyOf_eq hr0, except_bind_ok, hcmp]
          simp only [Bool.false_eq_true, if_false]
          exact hok
        · intro x hx
          rcases List.mem_cons.mp hx with rfl | hx
          · exact tupLt_irrefl _
          · rcases List.mem_cons.mp hx with rfl | hx
            · exact hcmp
            · exact hmax x (List.mem_cons_of_mem best hx)
      | cons x0 l₁t =>
        rw [List.cons_append] at hsplit
        injection hsplit with hx0 hrs2
        subst hx0
        have hbc : tupLt (keyP best) (keyP c) = true :=
          hlo best (List.mem_cons_self best l₁t)
        refine ⟨c, best :: r :: l₁t, l₂, ?_, by rw [hrs2]; rfl, ?_, ?_⟩
        · simp only [pyMaxBy, keyOf_eq hr0, except_bind_ok, hcmp]
          simp only [Bool.false_eq_true, if_false]
          exact hok
        · intro x hx
          rcases List.mem_cons.mp hx with rfl | hx
          · exact hbc
          · rcases List.mem_cons.mp hx with rfl | hx
            · exact tupLt_of_not_of_lt hcmp hbc
            · exact hlo x (List.mem_cons_of_mem best hx)
        · intro x hx
          rcases List.mem_cons.mp hx with rfl | hx
          · exact hmax x (List.mem_cons_self x rs)
          · rcases List.mem_cons.mp hx with rfl | hx
            · exact tupLt_asymm (tupLt_of_not_of_lt hcmp hbc)
            · exact hmax x (List.mem_cons_of_mem best hx)

/-- Inversion of a successful top-level evaluation: whatever branch was
taken, the returned trace is the per-rule trace of the sorted rule list
and every rule evaluated without error. -/
theorem evaluate_ok_trace (rules : List Rule) (tx : Value) (res : EvalResult)
    (h : PolicyEngine.evaluate rules tx = Except.ok res) :
    res.trace = (sortedRules rules).map (fun r => (r.name, hitB r tx)) ∧
      ∀ r ∈ sortedRules rules, Node.eval r.root tx = Except.ok (hitB r tx) := by
  simp only [PolicyEngine.evaluate] at h
  cases hrun : runRules (sortedRules rules) tx with
  | error e => rw [hrun, except_bind_error] at h; exact Except.noConfusion h
  | ok p =>
    obtain ⟨tr, m⟩ := p
    obtain ⟨h1, _, h3⟩ := runRules_ok_inv _ tx tr m hrun
    rw [hrun, except_bind_ok] at h
    dsimp only at h
    cases m with
    | nil =>
      simp only [except_pure, Except.ok.injEq] at h
      rw [← h]
      exact ⟨h1, h3⟩
    | cons m0 ms =>
      dsimp only at h
      cases hk : keyOf m0 with
      | error e => rw [hk, except_bind_error] at h; exact Except.noConfusion h
      | ok km =>
        rw [hk, except_bind_ok] at h
        cases hmx : pyMaxBy m0 km ms with
        | error e => rw [hmx, except_bind_error] at h; exact Except.noConfusion h
        | ok c =>
          rw [hmx, except_bind_ok] at h
          simp only [except_pure, Except.ok.injEq] at h
          rw [← h]
          exact ⟨h1, h3⟩

/-- C9: CompositeCondition.eval on an empty children sequence yields
true under mode all and false under mode any, for every transaction —
the boolean identities of conjunction and disjunction. -/
theorem composite_empty_identities (tx : Value) :
    Node.eval (Node.comp "all" []) tx = Except.ok true ∧
    Node.eval (Node.comp "any" []) tx = Except.ok false :=
  ⟨rfl, rfl⟩

/-- C8: when the dotted field path fails to resolve (at some step the
current value is not a mapping or the next segment is absent),
Condition.eval returns false and never raises, whatever the operator
and operand. -/
theorem missing_field_eval_false (c : Condition) (tx : Value)
    (h : resolvePath (splitParts [] c.field.data) tx = none) :
    c.eval tx = Except.ok false := by
  have hg : getNested c.field tx = Value.nil := by unfold getNested; rw [h]
  simp [Condition.eval, hg, Value.isNil, except_pure]

/-- Witness for C8: a condition on originator.kyc against a transaction
lacking an originator key evaluates to false. -/
theorem missing_field_eval_false_witness :
    resolvePath (splitParts [] ("originator.kyc" : String).data)
        (Value.dict [("amount", Value.num 5)]) = none ∧
    Condition.eval ⟨"originator.kyc", "eq", Value.bool false⟩
        (Value.dict [("amount", Value.num 5)]) = Except.ok false :=
  ⟨rfl, missing_field_eval_false _ _ rfl⟩

/-- C10: a field path that resolves to a present null is conflated with
a missing field by _get_nested, so the condition evaluates to false for
every operator and operand and no error is raised. -/
theorem null_field_eval_false (c : Condition) (tx : Value)
    (h : resolvePath (splitParts [] c.field.data) tx = some Value.nil) :
    getNested c.field tx = Value.nil ∧ c.eval tx = Except.ok false := by
  have hg : getNested c.field tx = Value.nil := by unfold getNested; rw [h]
  exact ⟨hg, by simp [Condition.eval, hg, Value.isNil, except_pure]⟩

/-- Witness for C10: an eq-null condition on a present null field does
not match. -/
theorem null_field_eval_false_witness :
    resolvePath (splitParts [] ("originator.kyc" : String).data)
        (Value.dict [("originator", Value.dict [("kyc", Value.nil)])]) = some Value.nil ∧
    (getNested "originator.kyc"
        (Value.dict [("originator", Value.dict [("kyc", Value.nil)])]) = Value.nil ∧
      Condition.eval ⟨"originator.kyc", "eq", Value.nil⟩
        (Value.dict [("originator", Value.dict [("kyc", Value.nil)])]) = Except.ok false) :=
  ⟨rfl, null_field_eval_false ⟨"originator.kyc", "eq", Value.nil⟩
    (Value.dict [("originator", Value.dict [("kyc", Value.nil)])]) rfl⟩

/-- C7: when every rule evaluates (successfully) to false, evaluation
succeeds with decision allow, no winning rule and an empty matched
list. -/
theorem evaluate_no_match_allow (rules : List Rule) (tx : Value)
    (h : ∀ r ∈ rules, Node.eval r.root tx = Except.ok false) :
    ∃ res, PolicyEngine.evaluate rules tx = Except.ok res ∧
      res.decision = "allow" ∧ res.rule = none ∧ res.matched_rules = [] := by
  have hperm : (sortedRules rules).Perm rules := List.perm_insertionSort _ _
  have hS : ∀ r ∈ sortedRules rules, Node.eval r.root tx = Except.ok false :=
    fun r hr => h r (hperm.subset hr)
  have hrun := runRules_ok_of (sortedRules rules) tx
    (fun r hr => ⟨false, hS r hr⟩)
  have hfil : (sortedRules rules).filter (fun r => hitB r tx) = [] := by
    rw [List.filter_eq_nil_iff]
    intro r hr
    simp [hitB, hS r hr]
  rw [hfil] at hrun
  refine ⟨⟨"allow", none, [],
    (sortedRules rules).map (fun r => (r.name, hitB r tx))⟩, ?_, rfl, rfl, rfl⟩
  simp [PolicyEngine.evaluate, hrun, except_bind_ok, except_pure]

/-- The compiled form of the DEFAULT_RULES document of the repository,
used as concrete witness data. -/
def defRules : List Rule := [
  ⟨"block_unhosted_wallets", .cond ⟨"originator.kyc", "eq", .bool false⟩, "block", 20⟩,
  ⟨"flag_high_value_eur", .comp "all" [.cond ⟨"amount", "gt", .num 100000⟩,
    .cond ⟨"currency", "eq", .str "EUR"⟩], "flag", 10⟩,
  ⟨"default_allow", .cond ⟨"__always__", "eq", .bool true⟩, "allow", 0⟩]

/-- Witness for C7: a fully-KYCed low-value transaction matches no rule
of the default rule set (the sentinel of default_allow does not match
either) and the decision defaults to allow with no winning rule. -/
theorem evaluate_no_match_allow_witness :
    (∀ r ∈ defRules, Node.eval r.root
        (Value.dict [("originator", Value.dict [("kyc", Value.bool true)]),
          ("amount", Value.num 15000), ("currency", Value.str "EUR")]) = Except.ok false) ∧
    ∃ res, PolicyEngine.evaluate defRules
        (Value.dict [("originator", Value.dict [("kyc", Value.bool true)]),
          ("amount", Value.num 15000), ("currency", Value.str "EUR")]) = Except.ok res ∧
      res.decision = "allow" ∧ res.rule = none ∧ res.matched_rules = [] :=
  ⟨by decide, evaluate_no_match_allow defRules _ (by decide)⟩

/-- Pointwise description of the trace produced for a rule list. -/
theorem trace_forall2 (tx : Value) : ∀ (l : List Rule),
    (∀ r ∈ l, Node.eval r.root tx = Except.ok (hitB r tx)) →
    List.Forall₂ (fun (e : String × Bool) (r : Rule) =>
      e.1 = r.name ∧ Node.eval r.root tx = Except.ok e.2)
      (l.map (fun r => (r.name, hitB r tx))) l
  | [], _ => List.Forall₂.nil
  | r :: rs, h => List.Forall₂.cons ⟨rfl, h r (List.mem_cons_self r rs)⟩
      (trace_forall2 tx rs (fun x hx => h x (List.mem_cons_of_mem r hx)))

/-- C6: a successful evaluation returns a trace with exactly one entry
(rule name and boolean result) per rule of the set, in the deterministic
descending-priority then ascending-name order; its length equals the
number of rules. -/
theorem evaluate_trace_one_per_rule (rules : List Rule) (tx : Value) (res : EvalResult)
    (h : PolicyEngine.evaluate rules tx = Except.ok res) :
    res.trace.length = rules.length ∧
    List.Forall₂ (fun (e : String × Bool) (r : Rule) =>
      e.1 = r.name ∧ Node.eval r.root tx = Except.ok e.2) res.trace (sortedRules rules) ∧
    (sortedRules rules).Perm rules ∧ List.Sorted RuleLE (sortedRules rules) := by
  obtain ⟨htr, hev⟩ := evaluate_ok_trace rules tx res h
  have hperm : (sortedRules rules).Perm rules := List.perm_insertionSort _ _
  refine ⟨?_, ?_, hperm, List.sorted_insertionSort _ _⟩
  · rw [htr, List.length_map]
    exact hperm.length_eq
  · rw [htr]
    exact trace_forall2 tx _ hev

/-- Witness for C6 at the default rule set and a low-KYC transaction:
evaluation succeeds and the theorem applies. -/
theorem evaluate_trace_one_per_rule_witness :
    PolicyEngine.evaluate defRules
        (Value.dict [("originator", Value.dict [("kyc", Value.bool false)]),
          ("amount", Value.num 5000), ("currency", Value.str "EUR")]) =
      Except.ok ⟨"block", some "block_unhosted_wallets", ["block_unhosted_wallets"],
        [("block_unhosted_wallets", true), ("flag_high_value_eur", false),
          ("default_allow", false)]⟩ ∧
    ((⟨"block", some "block_unhosted_wallets", ["block_unhosted_wallets"],
        [("block_unhosted_wallets", true), ("flag_high_value_eur", false),
          ("default_allow", false)]⟩ : EvalResult).trace.length = defRules.length ∧
      List.Forall₂ (fun (e : String × Bool) (r : Rule) =>
        e.1 = r.name ∧ Node.eval r.root
          (Value.dict [("originator", Value.dict [("kyc", Value.bool false)]),
            ("amount", Value.num 5000), ("currency", Value.str "EUR")]) = Except.ok e.2)
        (⟨"block", some "block_unhosted_wallets", ["block_unhosted_wallets"],
          [("block_unhosted_wallets", true), ("flag_high_value_eur", false),
            ("default_allow", false)]⟩ : EvalResult).trace (sortedRules defRules) ∧
      (sortedRules defRules).Perm defRules ∧
      List.Sorted RuleLE (sortedRules defRules)) :=
  ⟨by decide, evaluate_trace_one_per_rule defRules _ _ (by decide)⟩

/-- Actions drawn from the decision set always have a severity rank. -/
theorem action_rank_isSome {a : String}
    (h : a = "allow" ∨ a = "flag" ∨ a = "block") : action_rank a ≠ none := by
  rcases h with h | h | h <;> simp [action_rank, h]

/-- C4: with unique rule names, decision-set actions and an
error-free evaluation in which at least one rule matches, evaluate
returns the matched rule w maximizing the key (severity rank, priority)
— no matched rule has a strictly larger key — breaking exact key ties
in favour of the earliest rule in the (priority descending, name
ascending) order, which for an equal-key rival r means w.name precedes
r.name; the decision is w's action. -/
theorem evaluate_selects_first_max (rules : List Rule) (tx : Value)
    (hnames : (rules.map Rule.name).Nodup)
    (hact : ∀ r ∈ rules, r.action = "allow" ∨ r.action = "flag" ∨ r.action = "block")
    (heval : ∀ r ∈ rules, ∃ b, Node.eval r.root tx = Except.ok b)
    (hmatch : ∃ r ∈ rules, Node.eval r.root tx = Except.ok true) :
    ∃ res w, PolicyEngine.evaluate rules tx = Except.ok res ∧
      w ∈ rules ∧ Node.eval w.root tx = Except.ok true ∧
      res.decision = w.action ∧ res.rule = some w.name ∧
      (∀ r ∈ rules, Node.eval r.root tx = Except.ok true →
        tupLt (keyP w) (keyP r) = false) ∧
      (∀ r ∈ rules, Node.eval r.root tx = Except.ok true →
        keyP r = keyP w → r ≠ w → charsLt w.name.data r.name.data = true) := by
  have hactR : ∀ r ∈ rules, action_rank r.action ≠ none :=
    fun r hr => action_rank_isSome (hact r hr)
  have hperm : (sortedRules rules).Perm rules := List.perm_insertionSort _ _
  have hevalS : ∀ r ∈ sortedRules rules, ∃ b, Node.eval r.root tx = Except.ok b :=
    fun r hr => heval r (hperm.subset hr)
  have hrun := runRules_ok_of (sortedRules rules) tx hevalS
  have hmem_matched : ∀ {r : Rule}, r ∈ rules → Node.eval r.root tx = Except.ok true →
      r ∈ (sortedRules rules).filter (fun r => hitB r tx) := by
    intro r hr hrt
    exact List.mem_filter.mpr ⟨hperm.mem_iff.mpr hr, by simp [hitB, hrt]⟩
  obtain ⟨r0, hr0, hr0t⟩ := hmatch
  have hr0m := hmem_matched hr0 hr0t
  cases hm : (sortedRules rules).filter (fun r => hitB r tx) with
  | nil => rw [hm] at hr0m; exact absurd hr0m (List.not_mem_nil r0)
  | cons m0 ms =>
    have hrank : ∀ x ∈ m0 :: ms, action_rank x.action ≠ none := by
      intro x hx
      rw [← hm] at hx
      exact hactR x (hperm.subset (List.mem_filter.mp hx).1)
    have h0 : action_rank m0.action ≠ none := hrank m0 (List.mem_cons_self m0 ms)
    obtain ⟨c, l₁, l₂, hok, hsplit, hlo, hmax⟩ :=
      pyMaxBy_spec ms m0 h0 (fun x hx => hrank x (List.mem_cons_of_mem m0 hx))
    have heval_eq : PolicyEngine.evaluate rules tx =
        Except.ok ⟨c.action, some c.name, (m0 :: ms).map Rule.name,
          (sortedRules rules).map (fun r => (r.name, hitB r tx))⟩ := by
      simp only [PolicyEngine.evaluate]
      rw [hrun, except_bind_ok]
      dsimp only
      rw [hm]
      dsimp only
      rw [keyOf_eq h0, except_bind_ok, hok, except_bind_ok, except_pure]
    have hcm : c ∈ m0 :: ms := by
      rw [hsplit]
      exact List.mem_append_right l₁ (List.mem_cons_self c l₂)
    have hcs : c ∈ sortedRules rules := by
      rw [← hm] at hcm
      exact (List.mem_filter.mp hcm).1
    have hcr : c ∈ rules := hperm.subset hcs
    have hct : Node.eval c.root tx = Except.ok true := by
      rw [← hm] at hcm
      have := (List.mem_filter.mp hcm).2
      exact of_decide_eq_true this
    refine ⟨_, c, heval_eq, hcr, hct, rfl, rfl, ?_, ?_⟩
    · intro r hr hrt
      have := hmem_matched hr hrt
      rw [hm] at this
      exact hmax r this
    · intro r hr hrt hkey hne
      have hrm := hmem_matched hr hrt
      rw [hm, hsplit] at hrm
      rcases List.mem_append.mp hrm with hrl | hrc
      · exfalso
        have := hlo r hrl
        rw [hkey] at this
        rw [tupLt_irrefl] at this
        exact Bool.false_ne_true this
      · rcases List.mem_cons.mp hrc with rfl | hrl₂
        · exact absurd rfl hne
        · have hsorted : List.Sorted RuleLE (sortedRules rules) :=
            List.sorted_insertionSort _ _
          have hsm : List.Sorted RuleLE ((sortedRules rules).filter (fun r => hitB r tx)) :=
            hsorted.filter _
          rw [hm, hsplit] at hsm
          have hsuffix : List.Sorted RuleLE (c :: l₂) :=
            List.Pairwise.sublist (List.sublist_append_right l₁ (c :: l₂)) hsm
          have hcrle : RuleLE c r := List.rel_of_sorted_cons hsuffix r hrl₂
          have hpeq : r.priority = c.priority := by
            have := congrArg Prod.snd hkey
            simpa [keyP] using this
          have hble : ruleLE c r = true := hcrle
          unfold ruleLE at hble
          rw [if_pos (beq_iff_eq.mpr hpeq.symm)] at hble
          rw [Bool.not_eq_true'] at hble
          have hnn : r.name ≠ c.name := by
            intro he
            exact hne (List.inj_on_of_nodup_map hnames hr hcr he)
          cases hcc : charsLt c.name.data r.name.data with
          | true => rfl
          | false =>
            exfalso
            exact hnn (string_eq_of_data_eq (charsLt_conn hble hcc))

/-- High-value transaction from an unverified originator: matches both
the block rule and the flag rule of the default rule set. -/
def txHighRisk : Value :=
  .dict [("originator", .dict [("kyc", .bool false)]),
    ("amount", .num 250000), ("currency", .str "EUR")]

/-- Witness for C4: on a transaction matching both the block rule and
the flag rule, the block rule (higher severity rank) is selected. -/
theorem evaluate_selects_first_max_witness :
    ((defRules.map Rule.name).Nodup ∧
      (∀ r ∈ defRules, r.action = "allow" ∨ r.action = "flag" ∨ r.action = "block") ∧
      (∀ r ∈ defRules, ∃ b, Node.eval r.root txHighRisk = Except.ok b) ∧
      (∃ r ∈ defRules, Node.eval r.root txHighRisk = Except.ok true)) ∧
    ∃ res w, PolicyEngine.evaluate defRules txHighRisk = Except.ok res ∧
      w ∈ defRules ∧ Node.eval w.root txHighRisk = Except.ok true ∧
      res.decision = w.action ∧ res.rule = some w.name ∧
      (∀ r ∈ defRules, Node.eval r.root txHighRisk = Except.ok true →
        tupLt (keyP w) (keyP r) = false) ∧
      (∀ r ∈ defRules, Node.eval r.root txHighRisk = Except.ok true →
        keyP r = keyP w → r ≠ w → charsLt w.name.data r.name.data = true) :=
  ⟨⟨by decide, by decide, by decide, by decide⟩,
    evaluate_selects_first_max defRules txHighRisk
      (by decide) (by decide) (by decide) (by decide)⟩

/-- Value.isNil is the identity test against null. -/
theorem isNil_iff {v : Value} : v.isNil = true ↔ v = Value.nil := by
  cases v <;> simp [Value.isNil]

/-- C1 (divergence): a rule compiled from a specification whose when
clause is absent or empty gets the sentinel condition on the magic
field `__always__`; on a transaction without that field (here one
holding only an amount) the root evaluates to false, not true — the
rule does not match every transaction. -/
theorem sentinel_rule_matches_nothing :
    load_rules_from_yaml (.list [
      .dict [("name", .str "default_allow"), ("when", .dict []), ("action", .str "allow")],
      .dict [("name", .str "implicit_when"), ("action", .str "allow")]]) =
      Except.ok [⟨"default_allow", .cond ⟨"__always__", "eq", .bool true⟩, "allow", 0⟩,
        ⟨"implicit_when", .cond ⟨"__always__", "eq", .bool true⟩, "allow", 0⟩] ∧
    Node.eval (.cond ⟨"__always__", "eq", .bool true⟩)
      (.dict [("amount", .num 5)]) = Except.ok false := by
  constructor
  · simp [load_rules_from_yaml, load_rule, build_node, build_leaf, getKey, sentinelSpec,
      pyTruthy, except_bind_ok, except_pure, List.mapM.loop]
  · rfl

/-- C2 (counterexample): a rule-set specification with the unrecognized
operator ge compiles without failure — load_rules_from_yaml installs the
rule instead of rejecting the set. -/
theorem unknown_op_compiles :
    load_rules_from_yaml (.list [.dict [("name", .str "r1"),
      ("when", .dict [("field", .str "amount"), ("op", .str "ge"), ("value", .num 5)]),
      ("action", .str "block")]]) =
      Except.ok [⟨"r1", .cond ⟨"amount", "ge", .num 5⟩, "block", 0⟩] := by
  simp [load_rules_from_yaml, load_rule, build_node, build_leaf, getKey, sentinelSpec,
    pyTruthy, except_bind_ok, except_pure, List.mapM.loop]

/-- C2 (amended): compilation performs no operator validation — a
specification whose operator is outside the four recognized ones
compiles successfully into a rule carrying that operator, and the
unknown-operator error is raised only at evaluation time, when the
condition is reached on a transaction where its field resolves. -/
theorem unknown_op_compiles_fails_at_eval (o : String)
    (h : o ≠ "gt" ∧ o ≠ "lt" ∧ o ≠ "eq" ∧ o ≠ "in") :
    load_rules_from_yaml (.list [.dict [("name", .str "r1"),
      ("when", .dict [("field", .str "amount"), ("op", .str o), ("value", .num 5)]),
      ("action", .str "block")]]) =
      Except.ok [⟨"r1", .cond ⟨"amount", o, .num 5⟩, "block", 0⟩] ∧
    Condition.eval ⟨"amount", o, .num 5⟩ (.dict [("amount", .num 7)]) =
      Except.error ("Unknown operator: " ++ o) := by
  obtain ⟨h1, h2, h3, h4⟩ := h
  constructor
  · simp [load_rules_from_yaml, load_rule, build_node, build_leaf, getKey, sentinelSpec,
      pyTruthy, except_bind_ok, except_pure, List.mapM.loop]
  · have hg : getNested "amount" (Value.dict [("amount", Value.num 7)]) = Value.num 7 := rfl
    simp [Condition.eval, hg, Value.isNil, h1, h2, h3, h4]

/-- Witness for the amended C2 at the concrete operator ge. -/
theorem unknown_op_compiles_fails_at_eval_witness :
    (("ge" : String) ≠ "gt" ∧ ("ge" : String) ≠ "lt" ∧ ("ge" : String) ≠ "eq" ∧
      ("ge" : String) ≠ "in") ∧
    (load_rules_from_yaml (.list [.dict [("name", .str "r1"),
      ("when", .dict [("field", .str "amount"), ("op", .str "ge"), ("value", .num 5)]),
      ("action", .str "block")]]) =
      Except.ok [⟨"r1", .cond ⟨"amount", "ge", .num 5⟩, "block", 0⟩] ∧
    Condition.eval ⟨"amount", "ge", .num 5⟩ (.dict [("amount", .num 7)]) =
      Except.error ("Unknown operator: " ++ "ge")) :=
  ⟨by decide, unknown_op_compiles_fails_at_eval "ge" (by decide)⟩

/-- C3 (counterexample): a specification whose action is deny — outside
the decision set — compiles without a MalformedRule failure, producing a
Rule that carries the action deny. -/
theorem unknown_action_compiles :
    load_rules_from_yaml (.list [.dict [("name", .str "r1"), ("action", .str "deny")]]) =
      Except.ok [⟨"r1", .cond ⟨"__always__", "eq", .bool true⟩, "deny", 0⟩] := by
  simp [load_rules_from_yaml, load_rule, build_node, build_leaf, getKey, sentinelSpec,
    pyTruthy, except_bind_ok, except_pure, List.mapM.loop]

/-- C3 (amended): compilation performs no action validation — any
string action is accepted and stored in the compiled Rule; an action
outside the decision set only fails later, as a KeyError inside
evaluate, when such a rule matches and its severity rank is looked
up. -/
theorem unknown_action_accepted (a : String) (h : action_rank a = none) :
    load_rules_from_yaml (.list [.dict [("name", .str "r1"), ("action", .str a)]]) =
      Except.ok [⟨"r1", .cond ⟨"__always__", "eq", .bool true⟩, a, 0⟩] ∧
    PolicyEngine.evaluate [⟨"r1", .cond ⟨"__always__", "eq", .bool true⟩, a, 0⟩]
      (.dict [("__always__", .bool true)]) = Except.error ("KeyError: " ++ a) := by
  constructor
  · simp [load_rules_from_yaml, load_rule, build_node, build_leaf, getKey, sentinelSpec,
      pyTruthy, except_bind_ok, except_pure, List.mapM.loop]
  · have hrun : runRules (sortedRules [⟨"r1", .cond ⟨"__always__", "eq", .bool true⟩, a, 0⟩])
        (.dict [("__always__", .bool true)]) =
        Except.ok ([("r1", true)], [⟨"r1", .cond ⟨"__always__", "eq", .bool true⟩, a, 0⟩]) := rfl
    simp only [PolicyEngine.evaluate]
    rw [hrun, except_bind_ok]
    dsimp only
    simp [keyOf, h, except_bind_error]

/-- Witness for the amended C3 at the concrete action deny. -/
theorem unknown_action_accepted_witness :
    action_rank "deny" = none ∧
    (load_rules_from_yaml (.list [.dict [("name", .str "r1"), ("action", .str "deny")]]) =
      Except.ok [⟨"r1", .cond ⟨"__always__", "eq", .bool true⟩, "deny", 0⟩] ∧
    PolicyEngine.evaluate [⟨"r1", .cond ⟨"__always__", "eq", .bool true⟩, "deny", 0⟩]
      (.dict [("__always__", .bool true)]) = Except.error ("KeyError: " ++ "deny")) :=
  ⟨rfl, unknown_action_accepted "deny" rfl⟩

/-- C5 (counterexample): a condition with the unrecognized operator ge
evaluated against a transaction missing its field returns false
silently instead of failing — the missing-field check precedes the
operator dispatch. -/
theorem unknown_op_silent_false :
    Condition.eval ⟨"amount", "ge", .num 5⟩ (.dict []) = Except.ok false := rfl

/-- C5 (amended): an unrecognized operator fails with the
unknown-operator error exactly when the field resolves to a present
non-null value; when _get_nested yields None (missing path or stored
null) the condition evaluates to false before the operator is
consulted. -/
theorem unknown_op_error_iff_present (c : Condition) (tx : Value)
    (hop : c.op ≠ "gt" ∧ c.op ≠ "lt" ∧ c.op ≠ "eq" ∧ c.op ≠ "in") :
    (getNested c.field tx ≠ Value.nil →
      c.eval tx = Except.error ("Unknown operator: " ++ c.op)) ∧
    (getNested c.field tx = Value.nil → c.eval tx = Except.ok false) := by
  obtain ⟨h1, h2, h3, h4⟩ := hop
  constructor
  · intro hv
    have hb : (getNested c.field tx).isNil = false := by
      cases hq : (getNested c.field tx).isNil
      · rfl
      · exact absurd (isNil_iff.mp hq) hv
    simp [Condition.eval, hb, h1, h2, h3, h4]
  · intro hv
    simp [Condition.eval, hv, Value.isNil, except_pure]

/-- Witness for the amended C5 at operator ge: error on a present field,
silent false on a missing one. -/
theorem unknown_op_error_iff_present_witness :
    (("ge" : String) ≠ "gt" ∧ ("ge" : String) ≠ "lt" ∧ ("ge" : String) ≠ "eq" ∧
      ("ge" : String) ≠ "in") ∧
    ((getNested "amount" (Value.dict [("amount", Value.num 7)]) ≠ Value.nil →
      Condition.eval ⟨"amount", "ge", .num 5⟩ (Value.dict [("amount", Value.num 7)]) =
        Except.error ("Unknown operator: " ++ "ge")) ∧
    (getNested "amount" (Value.dict [("amount", Value.num 7)]) = Value.nil →
      Condition.eval ⟨"amount", "ge", .num 5⟩ (Value.dict [("amount", Value.num 7)]) =
        Except.ok false)) :=
  ⟨by decide, unknown_op_error_iff_present ⟨"amount", "ge", .num 5⟩
    (Value.dict [("amount", Value.num 7)]) (by decide)⟩
